import Mathlib

/-!
Shallow embedding of the hashicorp/golang-lru cache library and proofs about it.

The embedding follows the Go sources:
* `LRU` models the simple LRU used as the building block of the composite
  policies (`src/simplelru/lru.go`, `container/list`-backed variant): the list
  is kept front-first (head = most recently used, last = back = oldest).
* `ARCCache` models the ARC policy (`arc.go`).
* `TwoQueueCache` models the 2Q policy (`2q.go`).
* `SieveLRU` models the SIEVE-capable LRU (`simplelru/lru.go`, v2 variant).
* `ExpiringCache` models the expiring wrapper (`expiringlru.go`).
-/

section SimpleLRU

variable {K V : Type} [DecidableEq K]

/-- State of `simplelru.LRU`: the configured capacity and the eviction list.
The head of `list` is the front (most recently used); the last element is the
back (oldest).  The Go `items` map always mirrors the list, so the list alone
determines the state. -/
structure LRU (K V : Type) where
  size : Nat
  list : List (K × V)
  deriving Repr, DecidableEq

namespace LRU

/-- Model of `NewLRU`'s freshly constructed state (empty list). -/
def newRaw (size : Nat) : LRU K V := ⟨size, []⟩

/-- Model of `LRU.Contains`: key membership, no recency change. -/
def contains (c : LRU K V) (k : K) : Bool :=
  c.list.any (fun p => decide (p.1 = k))

/-- Model of `LRU.Peek`: lookup without recency change. -/
def peek (c : LRU K V) (k : K) : Option V :=
  (c.list.find? (fun p => decide (p.1 = k))).map (fun p => p.2)

/-- Model of `LRU.Get`: on a hit, move the entry to the front. -/
def get (c : LRU K V) (k : K) : LRU K V × Option V :=
  match c.list.find? (fun p => decide (p.1 = k)) with
  | some p =>
      ({ c with list := (k, p.2) :: c.list.eraseP (fun q => decide (q.1 = k)) }, some p.2)
  | none => (c, none)

/-- Model of `LRU.Add`: update-and-move-to-front on an existing key; otherwise
push front and, if the length now exceeds `size`, unlink the back entry and
report it as the eviction. -/
def add (c : LRU K V) (k : K) (v : V) : LRU K V × Option (K × V) :=
  if c.contains k then
    ({ c with list := (k, v) :: c.list.eraseP (fun q => decide (q.1 = k)) }, none)
  else
    let l := (k, v) :: c.list
    if l.length > c.size then
      match l.getLast? with
      | some kv => ({ c with list := l.dropLast }, some kv)
      | none => ({ c with list := l }, none)
    else
      ({ c with list := l }, none)

/-- Model of `LRU.Remove`: unlink the key's entry, reporting whether the key
was present. -/
def remove (c : LRU K V) (k : K) : LRU K V × Bool :=
  if c.contains k then
    ({ c with list := c.list.eraseP (fun q => decide (q.1 = k)) }, true)
  else
    (c, false)

/-- Model of `LRU.RemoveOldest`: unlink the back entry. -/
def removeOldest (c : LRU K V) : LRU K V × Option (K × V) :=
  match c.list.getLast? with
  | some kv => ({ c with list := c.list.dropLast }, some kv)
  | none => (c, none)

/-- Model of `LRU.Len`. -/
def len (c : LRU K V) : Nat := c.list.length

/-- Model of `LRU.Keys`: iterating from the back yields oldest to newest. -/
def keys (c : LRU K V) : List K := (c.list.map Prod.fst).reverse

/-- Model of `LRU.Purge`. -/
def purge (c : LRU K V) : LRU K V := { c with list := [] }

end LRU

end SimpleLRU

section ARC

variable {K V : Type} [DecidableEq K]

/-- State of `ARCCache` (`arc.go`): resident lists T1/T2, ghost lists B1/B2
(keys only, modelled with `Unit` values), capacity `size` and the adaptive
target `p` (a Go `int`, hence `Int`). -/
structure ARCCache (K V : Type) where
  size : Nat
  p : Int
  t1 : LRU K V
  t2 : LRU K V
  b1 : LRU K Unit
  b2 : LRU K Unit
  deriving Repr

namespace ARCCache

/-- Model of `NewARC`: four empty sub-LRUs of capacity `size`, `p = 0`. -/
def newARC (size : Nat) : ARCCache K V :=
  ⟨size, 0, LRU.newRaw size, LRU.newRaw size, LRU.newRaw size, LRU.newRaw size⟩

/-- Model of `ARCCache.replace`: adaptively evict from T1 (into B1) or from T2
(into B2), returning the evicted resident pair when one exists. -/
def replace (c : ARCCache K V) (b2ContainsKey : Bool) : ARCCache K V × Option (K × V) :=
  let t1Len := c.t1.len
  if t1Len > 0 ∧ ((t1Len : Int) > c.p ∨ ((t1Len : Int) = c.p ∧ b2ContainsKey = true)) then
    match c.t1.removeOldest with
    | (t1', some kv) => ({ c with t1 := t1', b1 := (c.b1.add kv.1 ()).1 }, some kv)
    | (t1', none) => ({ c with t1 := t1' }, none)
  else
    match c.t2.removeOldest with
    | (t2', some kv) => ({ c with t2 := t2', b2 := (c.b2.add kv.1 ()).1 }, some kv)
    | (t2', none) => ({ c with t2 := t2' }, none)

/-- Model of `ARCCache.Add`: the five-way case split of `arc.go`, returning
the new state, the `evicted` flag and the evicted resident pair (if any). -/
def add (c : ARCCache K V) (k : K) (v : V) : ARCCache K V × Bool × Option (K × V) :=
  if c.t1.contains k then
    ({ c with t1 := (c.t1.remove k).1, t2 := (c.t2.add k v).1 }, false, none)
  else if c.t2.contains k then
    ({ c with t2 := (c.t2.add k v).1 }, false, none)
  else if c.b1.contains k then
    let b1Len := c.b1.len
    let b2Len := c.b2.len
    let delta : Int := if b2Len > b1Len then ((b2Len / b1Len : Nat) : Int) else 1
    let p' : Int := if c.p + delta ≥ (c.size : Int) then (c.size : Int) else c.p + delta
    let c1 := { c with p := p' }
    let r := if c1.t1.len + c1.t2.len ≥ c1.size then replace c1 false else (c1, none)
    let c2 := r.1
    let c3 := { c2 with b1 := (c2.b1.remove k).1 }
    let c4 := { c3 with t2 := (c3.t2.add k v).1 }
    (c4, r.2.isSome, r.2)
  else if c.b2.contains k then
    let b1Len := c.b1.len
    let b2Len := c.b2.len
    let delta : Int := if b1Len > b2Len then ((b1Len / b2Len : Nat) : Int) else 1
    let p' : Int := if delta ≥ c.p then 0 else c.p - delta
    let c1 := { c with p := p' }
    let r := if c1.t1.len + c1.t2.len ≥ c1.size then replace c1 true else (c1, none)
    let c2 := r.1
    let c3 := { c2 with b2 := (c2.b2.remove k).1 }
    let c4 := { c3 with t2 := (c3.t2.add k v).1 }
    (c4, r.2.isSome, r.2)
  else
    let r := if c.t1.len + c.t2.len ≥ c.size then replace c false else (c, none)
    let c1 := r.1
    let c2 := if (c1.b1.len : Int) > (c1.size : Int) - c1.p then
        { c1 with b1 := c1.b1.removeOldest.1 } else c1
    let c3 := if (c2.b2.len : Int) > c2.p then
        { c2 with b2 := c2.b2.removeOldest.1 } else c2
    let c4 := { c3 with t1 := (c3.t1.add k v).1 }
    (c4, r.2.isSome, r.2)

/-- Model of `ARCCache.Get`: a T1 hit is promoted into T2; a T2 hit is moved
to the front of T2. -/
def get (c : ARCCache K V) (k : K) : ARCCache K V × Option V :=
  match c.t1.peek k with
  | some v0 =>
      ({ c with t1 := (c.t1.remove k).1, t2 := (c.t2.add k v0).1 }, some v0)
  | none =>
      let r := c.t2.get k
      ({ c with t2 := r.1 }, r.2)

/-- Model of `ARCCache.Len`. -/
def len (c : ARCCache K V) : Nat := c.t1.len + c.t2.len

/-- Model of `ARCCache.Keys`: T1 keys followed by T2 keys. -/
def keys (c : ARCCache K V) : List K := c.t1.keys ++ c.t2.keys

/-- Model of `ARCCache.Contains`. -/
def contains (c : ARCCache K V) (k : K) : Bool :=
  c.t1.contains k || c.t2.contains k

/-- Model of `ARCCache.Peek`. -/
def peek (c : ARCCache K V) (k : K) : Option V :=
  match c.t1.peek k with
  | some v => some v
  | none => c.t2.peek k

/-- Model of `ARCCache.Remove`: residents report `true`, ghost-only keys (and
missing keys) report `false`. -/
def remove (c : ARCCache K V) (k : K) : ARCCache K V × Bool :=
  let r1 := c.t1.remove k
  if r1.2 then ({ c with t1 := r1.1 }, true) else
  let r2 := c.t2.remove k
  if r2.2 then ({ c with t2 := r2.1 }, true) else
  let r3 := c.b1.remove k
  if r3.2 then ({ c with b1 := r3.1 }, false) else
  let r4 := c.b2.remove k
  if r4.2 then ({ c with b2 := r4.1 }, false) else
  (c, false)

/-- Model of `ARCCache.Purge`. -/
def purgeAll (c : ARCCache K V) : ARCCache K V :=
  { c with t1 := c.t1.purge, t2 := c.t2.purge, b1 := c.b1.purge, b2 := c.b2.purge }

end ARCCache

/-- A public operation on an `ARCCache`, used to describe operation sequences. -/
inductive ArcOp (K V : Type) where
  | add (k : K) (v : V)
  | get (k : K)
  | peek (k : K)
  | contains (k : K)
  | remove (k : K)
  | purge
  deriving Repr

/-- Run one public operation on an `ARCCache`, discarding the observation. -/
def runArcOp (c : ARCCache K V) (op : ArcOp K V) : ARCCache K V :=
  match op with
  | .add k v => (c.add k v).1
  | .get k => (c.get k).1
  | .peek _ => c
  | .contains _ => c
  | .remove k => (c.remove k).1
  | .purge => c.purgeAll

/-- Run a sequence of public operations on an `ARCCache`. -/
def runArc (c : ARCCache K V) (ops : List (ArcOp K V)) : ARCCache K V :=
  ops.foldl runArcOp c

end ARC

section TwoQ

variable {K V : Type} [DecidableEq K]

/-- State of `TwoQueueCache` (`2q.go`): the `recent` and `frequent` resident
LRUs (each of capacity `size`), the `recentEvict` ghost LRU (keys only), the
total capacity `size` and the target `recentSize`. -/
structure TwoQueueCache (K V : Type) where
  size : Nat
  recentSize : Nat
  recent : LRU K V
  frequent : LRU K V
  recentEvict : LRU K Unit
  deriving Repr, DecidableEq

/-- Model of `simplelru.NewLRU`: fails exactly when the requested size is not
positive (Go: "must provide a positive size"). -/
def newLRU (size : Int) : Except String (LRU K V) :=
  if size ≤ 0 then .error "must provide a positive size"
  else .ok (LRU.newRaw size.toNat)

/-- Model of `New2QParams`: validates the size and the two ratios, computes
the sub-sizes by truncating the real-number products (ratios are modelled as
rationals), then allocates the three sub-LRUs; any `newLRU` failure is
propagated, so a zero ghost size makes construction fail. -/
def new2QParams (size : Int) (recentRatio ghostRatio : ℚ) :
    Except String (TwoQueueCache K V) :=
  if size ≤ 0 then .error "invalid size"
  else if recentRatio < 0 ∨ recentRatio > 1 then .error "invalid recent ratio"
  else if ghostRatio < 0 ∨ ghostRatio > 1 then .error "invalid ghost ratio"
  else
    let recentSize := ⌊(size : ℚ) * recentRatio⌋
    let evictSize := ⌊(size : ℚ) * ghostRatio⌋
    match (newLRU size : Except String (LRU K V)) with
    | .error e => .error e
    | .ok recent =>
      match (newLRU size : Except String (LRU K V)) with
      | .error e => .error e
      | .ok frequent =>
        match (newLRU evictSize : Except String (LRU K Unit)) with
        | .error e => .error e
        | .ok recentEvict =>
            .ok ⟨size.toNat, recentSize.toNat, recent, frequent, recentEvict⟩

namespace TwoQueueCache

/-- Model of `TwoQueueCache.ensureSpace`: evict one resident (from `recent`
into the ghost list, or from `frequent`) when the cache is full. -/
def ensureSpace (c : TwoQueueCache K V) (recentEvict : Bool) :
    TwoQueueCache K V × Option (K × V) :=
  let recentLen := c.recent.len
  let freqLen := c.frequent.len
  if recentLen + freqLen < c.size then (c, none)
  else if recentLen > 0 ∧
      (recentLen > c.recentSize ∨ (recentLen = c.recentSize ∧ recentEvict = false)) then
    match c.recent.removeOldest with
    | (r', some kv) =>
        ({ c with recent := r', recentEvict := (c.recentEvict.add kv.1 ()).1 }, some kv)
    | (r', none) => ({ c with recent := r' }, none)
  else
    match c.frequent.removeOldest with
    | (f', some kv) => ({ c with frequent := f' }, some kv)
    | (f', none) => ({ c with frequent := f' }, none)

/-- Model of `TwoQueueCache.Add`: update in `frequent`, promote from `recent`,
readmit ghost hits into `frequent`, or admit new keys into `recent`; the
evicted resident pair (if any) comes from `ensureSpace`. -/
def add (c : TwoQueueCache K V) (k : K) (v : V) :
    TwoQueueCache K V × Option (K × V) :=
  if c.frequent.contains k then
    ({ c with frequent := (c.frequent.add k v).1 }, none)
  else if c.recent.contains k then
    ({ c with recent := (c.recent.remove k).1, frequent := (c.frequent.add k v).1 }, none)
  else if c.recentEvict.contains k then
    let r := ensureSpace c true
    let c1 := r.1
    let c2 := { c1 with recentEvict := (c1.recentEvict.remove k).1 }
    ({ c2 with frequent := (c2.frequent.add k v).1 }, r.2)
  else
    let r := ensureSpace c false
    ({ r.1 with recent := (r.1.recent.add k v).1 }, r.2)

/-- Model of `TwoQueueCache.Get`: a `frequent` hit updates recency there; a
`recent` hit is promoted into `frequent`. -/
def get (c : TwoQueueCache K V) (k : K) : TwoQueueCache K V × Option V :=
  let rf := c.frequent.get k
  match rf.2 with
  | some v => ({ c with frequent := rf.1 }, some v)
  | none =>
    match c.recent.peek k with
    | some v =>
        ({ c with recent := (c.recent.remove k).1, frequent := (c.frequent.add k v).1 },
         some v)
    | none => (c, none)

/-- Model of `TwoQueueCache.Len`. -/
def len (c : TwoQueueCache K V) : Nat := c.recent.len + c.frequent.len

/-- Model of `TwoQueueCache.Keys`: `frequent` keys first, then `recent` keys. -/
def keys (c : TwoQueueCache K V) : List K := c.frequent.keys ++ c.recent.keys

/-- Model of `TwoQueueCache.Remove`: residents report `true`, ghost-only keys
(and missing keys) report `false`. -/
def remove (c : TwoQueueCache K V) (k : K) : TwoQueueCache K V × Bool :=
  let r1 := c.frequent.remove k
  if r1.2 then ({ c with frequent := r1.1 }, true) else
  let r2 := c.recent.remove k
  if r2.2 then ({ c with recent := r2.1 }, true) else
  ({ c with recentEvict := (c.recentEvict.remove k).1 }, false)

/-- Model of `TwoQueueCache.Contains`. -/
def contains (c : TwoQueueCache K V) (k : K) : Bool :=
  c.frequent.contains k || c.recent.contains k

/-- Model of `TwoQueueCache.Peek`. -/
def peek (c : TwoQueueCache K V) (k : K) : Option V :=
  match c.frequent.peek k with
  | some v => some v
  | none => c.recent.peek k

/-- Model of `TwoQueueCache.Purge`. -/
def purgeAll (c : TwoQueueCache K V) : TwoQueueCache K V :=
  { c with recent := c.recent.purge, frequent := c.frequent.purge,
           recentEvict := c.recentEvict.purge }

end TwoQueueCache

/-- A public operation on a `TwoQueueCache`. -/
inductive TwoQOp (K V : Type) where
  | add (k : K) (v : V)
  | get (k : K)
  | peek (k : K)
  | contains (k : K)
  | remove (k : K)
  | purge
  deriving Repr

/-- Run one 2Q operation, appending the evicted key (if the operation evicted
a resident) to the event log. -/
def runTwoQOp (s : TwoQueueCache K V × List K) (op : TwoQOp K V) :
    TwoQueueCache K V × List K :=
  match op with
  | .add k v =>
      let r := s.1.add k v
      (r.1, s.2 ++ (r.2.map Prod.fst).toList)
  | .get k => ((s.1.get k).1, s.2)
  | .peek _ => s
  | .contains _ => s
  | .remove k => ((s.1.remove k).1, s.2)
  | .purge => (s.1.purgeAll, s.2)

/-- Run a sequence of 2Q operations from a given cache, collecting the evicted
keys in order. -/
def runTwoQ (c : TwoQueueCache K V) (ops : List (TwoQOp K V)) :
    TwoQueueCache K V × List K :=
  ops.foldl runTwoQOp (c, [])

end TwoQ

section Sieve

variable {K V : Type} [DecidableEq K]

/-- An entry of the SIEVE-capable LRU (`simplelru/lru.go`, v2 variant): key,
value and the SIEVE `visited` bit. -/
structure SieveEntry (K V : Type) where
  key : K
  value : V
  visited : Bool
  deriving Repr, DecidableEq

/-- State of the SIEVE-capable LRU: capacity, the eviction list stored
back-first (index 0 is the back/oldest entry, the last element is the front),
and the `hand` cursor, identified by the key of the entry it points at
(`none` models the nil hand). -/
structure SieveLRU (K V : Type) where
  size : Nat
  listB : List (SieveEntry K V)
  hand : Option K
  deriving Repr

/-- Number of set `visited` bits in a SIEVE list. -/
def countVisited (l : List (SieveEntry K V)) : Nat :=
  l.countP (fun e => e.visited)

/-- One pass of the loop in `getSieveCandidate`, with explicit fuel: starting
at index `i`, clear `visited` bits and advance towards the front (wrapping to
the back), stopping at the first unvisited entry.  Returns `none` when the
fuel runs out before an unvisited entry is found. -/
def sieveScanAux : List (SieveEntry K V) → Nat → Nat → Option (List (SieveEntry K V) × Nat)
  | _, _, 0 => none
  | l, i, fuel + 1 =>
    match l[i]? with
    | none => none
    | some e =>
      if e.visited then
        let l' := l.set i { e with visited := false }
        let i' := if i + 1 < l.length then i + 1 else 0
        sieveScanAux l' i' fuel
      else some (l, i)

/-- Index of the entry the hand points at; the back (index 0) when the hand is
nil, as in `getSieveCandidate`. -/
def handIdx (c : SieveLRU K V) : Nat :=
  match c.hand with
  | none => 0
  | some k =>
    match c.listB.findIdx? (fun e => decide (e.key = k)) with
    | some i => i
    | none => 0

namespace SieveLRU

/-- Model of `NewSieve`'s freshly constructed state. -/
def newSieve (size : Nat) : SieveLRU K V := ⟨size, [], none⟩

/-- Model of `LRU.Contains` for the SIEVE variant. -/
def contains (c : SieveLRU K V) (k : K) : Bool :=
  c.listB.any (fun e => decide (e.key = k))

/-- Model of `getSieveCandidate`: run the scan (with fuel twice the list
length, which always suffices), updating the cleared bits and parking the hand
on the candidate. -/
def getSieveCandidate (c : SieveLRU K V) : SieveLRU K V :=
  if c.listB.isEmpty then c
  else
    match sieveScanAux c.listB (handIdx c) (2 * c.listB.length) with
    | some r => { c with listB := r.1, hand := (r.1[r.2]?).map (fun e => e.key) }
    | none => c

/-- Model of `performSieveEviction`: find the candidate, advance the hand to
the candidate's previous neighbour (towards the front), unlink the candidate
and return it. -/
def performSieveEviction (c : SieveLRU K V) : SieveLRU K V × Option (K × V) :=
  let c1 := getSieveCandidate c
  match c1.hand with
  | some k =>
    match c1.listB.findIdx? (fun e => decide (e.key = k)) with
    | some i =>
      match c1.listB[i]? with
      | some e =>
          ({ c1 with listB := c1.listB.eraseIdx i,
                     hand := (c1.listB[i + 1]?).map (fun e => e.key) },
           some (e.key, e.value))
      | none => (c1, none)
    | none => (c1, none)
  | none => (c1, none)

/-- Model of `LRU.Add` in SIEVE mode: an existing key gets its value updated
and its `visited` bit set; a new key first triggers a SIEVE eviction when the
cache is full, then is pushed at the front with `visited = false`. -/
def add (c : SieveLRU K V) (k : K) (v : V) : SieveLRU K V × Bool :=
  if c.contains k then
    ({ c with listB := c.listB.map (fun e =>
        if e.key = k then { e with value := v, visited := true } else e) }, false)
  else
    let r := if c.listB.length ≥ c.size then ((performSieveEviction c).1, true)
             else (c, false)
    ({ r.1 with listB := r.1.listB ++ [⟨k, v, false⟩] }, r.2)

/-- Model of `LRU.Get` in SIEVE mode: a hit sets the `visited` bit and does
not reorder the list. -/
def get (c : SieveLRU K V) (k : K) : SieveLRU K V × Option V :=
  match c.listB.find? (fun e => decide (e.key = k)) with
  | some e =>
      ({ c with listB := c.listB.map (fun e' =>
          if e'.key = k then { e' with visited := true } else e') }, some e.value)
  | none => (c, none)

/-- Model of `LRU.RemoveOldest` in SIEVE mode: a SIEVE eviction. -/
def removeOldest (c : SieveLRU K V) : SieveLRU K V × Option (K × V) :=
  performSieveEviction c

/-- Model of `LRU.Len` for the SIEVE variant. -/
def len (c : SieveLRU K V) : Nat := c.listB.length

/-- Model of `LRU.Keys` for the SIEVE variant: back to front is oldest to
newest. -/
def keys (c : SieveLRU K V) : List K := c.listB.map (fun e => e.key)

end SieveLRU

/-- Add the numbers `0, 1, …, n-1` as key/value pairs to a SIEVE cache. -/
def sieveAddRange (c : SieveLRU Nat Nat) (n : Nat) : SieveLRU Nat Nat :=
  (List.range n).foldl (fun s i => (s.add i i).1) c

end Sieve

section Expiring

variable {K V : Type} [DecidableEq K]

/-- State of `ExpiringCache` (`expiringlru.go`) backed by a simple LRU, with
an injected clock (`time.Now` is passed to every operation as `now`).
`lru` tracks membership and recency of the backing cache; `expList` is the
expire list (head = front, latest-expiring first; the back is the earliest
expiring); `tbl` holds the contents (value and absolute expiration time) of
every live entry; `expiration` is the default TTL and `afterAccess`
distinguishes the two expiring policies. -/
structure ExpiringCache (K V : Type) where
  lru : LRU K Unit
  expList : List K
  tbl : List (K × V × Int)
  expiration : Int
  afterAccess : Bool
  deriving Repr

namespace ExpiringCache

/-- Expiration time of a live key (`0` for a key with no entry; such lookups
do not occur on live keys). -/
def expOf (s : ExpiringCache K V) (k : K) : Int :=
  match s.tbl.find? (fun p => decide (p.1 = k)) with
  | some p => p.2.2
  | none => 0

/-- Value of a live key. -/
def valOf (s : ExpiringCache K V) (k : K) : Option V :=
  (s.tbl.find? (fun p => decide (p.1 = k))).map (fun p => p.2.1)

end ExpiringCache

/-- Model of `expireList.PushFront`: walk from the front and insert the key
before the first entry expiring no later than it; otherwise push at the back. -/
def expInsert (expOf : K → Int) (k : K) : List K → List K
  | [] => [k]
  | e :: rest =>
    if expOf k ≥ expOf e then k :: e :: rest else e :: expInsert expOf k rest

/-- Insert `k` immediately before the element `e` of the list. -/
def insertBeforeKey (e k : K) : List K → List K
  | [] => [k]
  | x :: rest => if x = e then k :: x :: rest else x :: insertBeforeKey e k rest

/-- Model of `expireList.MoveToFront`: find, from the front, the first entry
expiring no later than `k` and move `k` before it (a no-op when that entry is
`k` itself); when every entry expires later, move `k` after the back. -/
def expMoveToFront (expOf : K → Int) (k : K) (l : List K) : List K :=
  match l.find? (fun e => decide (expOf k ≥ expOf e)) with
  | some e => if e = k then l else insertBeforeKey e k (l.erase k)
  | none => if l.getLast? = some k then l else l.erase k ++ [k]

namespace ExpiringCache

/-- Model of `ExpiringCache.removeExpired`: remove the expired entries from
the back of the expire list (all of them, or just the oldest one), and remove
each from the backing LRU and the table; returns the removed keys in removal
order. -/
def removeExpired (s : ExpiringCache K V) (now : Int) (all : Bool) :
    ExpiringCache K V × List K :=
  let rev := s.expList.reverse
  let expired :=
    if all then rev.takeWhile (fun k => decide (expOf s k ≤ now))
    else
      match rev.head? with
      | some k => if expOf s k ≤ now then [k] else []
      | none => []
  let s' : ExpiringCache K V :=
    { s with
      expList := (rev.drop expired.length).reverse,
      lru := expired.foldl (fun c k => (c.remove k).1) s.lru,
      tbl := s.tbl.filter (fun p => decide (¬ expired.contains p.1)) }
  (s', expired)

/-- Model of `ExpiringCache.AddWithTTL` at time `now`: update an existing
entry in place (new value and deadline, repositioned in the expire list),
or remove at most one expired entry to make room and insert a fresh entry;
returns the `evicted` flag together with the evicted or expired key reported
to the callback. -/
def addWithTTL (s : ExpiringCache K V) (now : Int) (k : K) (v : V) (ttl : Int) :
    ExpiringCache K V × Bool × Option K :=
  if s.lru.contains k then
    let s1 := { s with tbl := s.tbl.map (fun (p : K × V × Int) =>
        if p.1 = k then (k, v, now + ttl) else p) }
    let s2 := { s1 with expList := expMoveToFront (expOf s1) k s1.expList }
    ({ s2 with lru := (s2.lru.add k ()).1 }, false, none)
  else
    let r := removeExpired s now false
    let s1 := r.1
    let s2 := { s1 with tbl := (k, v, now + ttl) :: s1.tbl }
    let s3 := { s2 with expList := expInsert (expOf s2) k s2.expList }
    let ra := s3.lru.add k ()
    let s4 := { s3 with lru := ra.1 }
    match ra.2 with
    | some kv =>
        ({ s4 with expList := s4.expList.erase kv.1,
                   tbl := s4.tbl.filter (fun p => decide (¬ p.1 = kv.1)) },
         true, some kv.1)
    | none =>
      match r.2 with
      | e :: _ => (s4, true, some e)
      | [] => (s4, false, none)

/-- Model of `ExpiringCache.Add`: `AddWithTTL` with the default expiration. -/
def add (s : ExpiringCache K V) (now : Int) (k : K) (v : V) :
    ExpiringCache K V × Bool × Option K :=
  addWithTTL s now k v s.expiration

/-- Model of `ExpiringCache.Get` at time `now`: a hit on the backing LRU
updates its recency even when the entry is expired; an expired entry reads as
absent; under expire-after-access a successful read refreshes the deadline. -/
def get (s : ExpiringCache K V) (now : Int) (k : K) :
    ExpiringCache K V × Option V :=
  if s.lru.contains k then
    let s1 := { s with lru := (s.lru.get k).1 }
    if expOf s1 k > now then
      if s1.afterAccess then
        let s2 := { s1 with tbl := s1.tbl.map (fun (p : K × V × Int) =>
            if p.1 = k then (k, p.2.1, now + s1.expiration) else p) }
        ({ s2 with expList := expMoveToFront (expOf s2) k s2.expList }, valOf s2 k)
      else (s1, valOf s1 k)
    else (s1, none)
  else (s, none)

/-- Model of `ExpiringCache.Keys` at time `now`: remove every expired entry,
then report the backing LRU's keys (oldest to newest), together with the
removed keys (reported to the callback). -/
def keysAt (s : ExpiringCache K V) (now : Int) :
    ExpiringCache K V × List K × List K :=
  let r := removeExpired s now true
  (r.1, r.1.lru.keys, r.2)

/-- Model of `ExpiringCache.Len` at time `now`. -/
def lenAt (s : ExpiringCache K V) (now : Int) : ExpiringCache K V × Nat :=
  let r := removeExpired s now true
  (r.1, r.1.lru.len)

end ExpiringCache

/-- Model of `NewExpiringLRU`'s state for a cache of the given size and
default TTL, in expire-after-write mode. -/
def newExpiringLRU (size : Nat) (ttl : Int) : ExpiringCache K V :=
  ⟨LRU.newRaw size, [], [], ttl, false⟩

end Expiring

section Scenarios

/-- Operation sequence that parks an ARC cache of capacity 2 in the state
`T1 = [5, 6]`, `T2 = []`, `B1 = []`, `p = 2`: a subsequent add of a brand-new
key silently drops the resident key 5. -/
def arcDropPrefixOps : List (ArcOp Nat Nat) :=
  [.add 1 1, .add 2 2, .add 3 3, .add 4 4, .get 3, .get 4,
   .add 1 1, .add 2 2, .add 5 5, .add 6 6]

/-- The ARC state of capacity 2 reached by `arcDropPrefixOps`. -/
def arcDropState : ARCCache Nat Nat :=
  runArc (ARCCache.newARC 2) arcDropPrefixOps

/-- Operation sequence after which an ARC cache of capacity 2 holds three
resident entries: the silent-drop state is re-entered with a key still in B1,
and the B1 hit then inserts into T2 while `replace` evicts nothing. -/
def arcOverflowOps : List (ArcOp Nat Nat) :=
  arcDropPrefixOps ++
  [.add 7 7, .add 1 1, .add 6 6, .add 2 2, .add 8 8, .add 9 9, .add 7 7]

/-- The 2Q cache state produced by `New2QParams(3, 0.25, 0.50)`:
`recentSize = floor(3 * 0.25) = 0` and a ghost list of size
`floor(3 * 0.50) = 1`. -/
def twoQS4Start : TwoQueueCache Nat Nat :=
  ⟨3, 0, LRU.newRaw 3, LRU.newRaw 3, LRU.newRaw 1⟩

/-- The operation sequence of scenario S4. -/
def twoQS4Ops : List (TwoQOp Nat Nat) :=
  [.add 0 0, .add 1 1, .add 2 2, .get 0, .get 1, .add 3 3, .add 4 4]

/-- Scenario S3 state: a SIEVE cache of capacity 128 after adding keys 0..255
(value = key) and then reading key 192. -/
def sieveS3State : SieveLRU Nat Nat :=
  ((sieveAddRange (SieveLRU.newSieve 128) 256).get 192).1

/-- Scenario S6 run on an expire-after-write cache of capacity 3 and TTL 30
with an injected clock: `add(0), add(1)` at time 0, `add(2)` at time 20,
`get(0), get(1)` at time 20, `add(3), add(4)` at time 35.  Returns the final
state together with the evicted-key events in order. -/
def expS6Run : ExpiringCache Nat Nat × List Nat :=
  let s0 : ExpiringCache Nat Nat := newExpiringLRU 3 30
  let r1 := s0.add 0 0 0
  let r2 := r1.1.add 0 1 1
  let r3 := r2.1.add 20 2 2
  let r4 := r3.1.get 20 0
  let r5 := r4.1.get 20 1
  let r6 := r5.1.add 35 3 3
  let r7 := r6.1.add 35 4 4
  (r7.1, r6.2.2.toList ++ r7.2.2.toList)

/-- Keys in the order the specification prescribes for ARC (modelled from the
spec, for comparison with the code's `ARCCache.Keys`): frequent (T2) keys
first, then recent (T1) keys, each segment oldest to newest. -/
def arcKeysSpec {K V : Type} (c : ARCCache K V) : List K :=
  c.t2.keys ++ c.t1.keys

/-- The ARC state used to compare the two key orders: capacity 3 after
`add(1), get(1), add(2)`, so `T1 = [2]` and `T2 = [1]`. -/
def arcKeysState : ARCCache Nat Nat :=
  runArc (ARCCache.newARC 3) [.add 1 1, .get 1, .add 2 2]

/-- An ARC state of capacity 2 whose ghost list B1 holds key 1:
after `add(1), add(2), add(3)` the oldest resident was pushed into B1. -/
def arcB1State : ARCCache Nat Nat :=
  runArc (ARCCache.newARC 2) [.add 1 1, .add 2 2, .add 3 3]

/-- An ARC state of capacity 2 whose ghost list B2 holds key 1 (and key 2),
with key 1 resident nowhere else. -/
def arcB2State : ARCCache Nat Nat :=
  runArc (ARCCache.newARC 2) (arcDropPrefixOps ++ [.add 7 7])

/-- The ARC states reachable from a freshly constructed cache of capacity
`cap` by public operations. -/
inductive ArcReachable {K V : Type} [DecidableEq K] (cap : Nat) : ARCCache K V → Prop where
  | init : ArcReachable cap (ARCCache.newARC cap)
  | step (s : ARCCache K V) (op : ArcOp K V) :
      ArcReachable cap s → ArcReachable cap (runArcOp s op)

end Scenarios

section ClosedTheorems

/-- C1: after the 17 public operations of `arcOverflowOps` on an ARC cache
constructed with capacity 2, the resident count `Len()` is 3 — the code
violates the capacity invariant `len() ≤ cap` that every policy is supposed
to maintain. -/
theorem claim_C1_arc_len_exceeds_cap :
    (runArc (ARCCache.newARC 2 : ARCCache Nat Nat) arcOverflowOps).len = 3 := by
  decide

/-- C3: scenario S4 on a 2Q cache with capacity 3, recent ratio 0.25 and
ghost ratio 0.50 — the constructor yields exactly the state `twoQS4Start`,
and the operation sequence ends with keys 0 and 1 resident in `frequent`,
key 4 resident in `recent`, `len() = 3`, and evicted-key events `[2, 3]`. -/
theorem claim_C3_twoQ_s4 :
    (new2QParams 3 (1/4) (1/2) : Except String (TwoQueueCache Nat Nat)).toOption =
      some twoQS4Start ∧
    (runTwoQ twoQS4Start twoQS4Ops).1.frequent.keys = [0, 1] ∧
    (runTwoQ twoQS4Start twoQS4Ops).1.recent.keys = [4] ∧
    (runTwoQ twoQS4Start twoQS4Ops).1.len = 3 ∧
    (runTwoQ twoQS4Start twoQS4Ops).2 = [2, 3] := by
  have h1 : ⌊((3 : Int) : ℚ) * (1/4)⌋ = (0 : Int) := by
    rw [Int.floor_eq_iff]; norm_num
  have h2 : ⌊((3 : Int) : ℚ) * (1/2)⌋ = (1 : Int) := by
    rw [Int.floor_eq_iff]; norm_num
  refine ⟨?_, by decide, by decide, by decide, by decide⟩
  rw [new2QParams]
  rw [if_neg (by norm_num), if_neg (by norm_num), if_neg (by norm_num)]
  rw [h1, h2]
  decide

/-- C5: in the reachable ARC state `arcDropState` (capacity 2), key 5 is
resident, `T2` is empty, `|T1| = 2 = cap` and `p = 2`; adding the brand-new
key 7 returns `evicted = false`, yet afterwards key 5 is no longer resident
and is not recorded in the ghost list B1. -/
theorem claim_C5_arc_silent_drop :
    arcDropState.contains 5 = true ∧
    arcDropState.t2.len = 0 ∧
    arcDropState.t1.len = 2 ∧
    arcDropState.p = 2 ∧
    (arcDropState.add 7 7).2.1 = false ∧
    (arcDropState.add 7 7).1.contains 5 = false ∧
    (arcDropState.add 7 7).1.b1.contains 5 = false := by
  refine ⟨by decide, by decide, by decide, by decide, by decide, by decide, by decide⟩

set_option maxRecDepth 4000 in
/-- C7: scenario S3 — on a SIEVE cache of capacity 128, after adding keys
0..255 and reading key 192, a `RemoveOldest()` evicts key 128 (not 192), and
a subsequent `Get(192)` still returns `Some 192`. -/
theorem claim_C7_sieve_retention :
    (sieveS3State.removeOldest.1.get 192).2 = some 192 ∧
    sieveS3State.removeOldest.2 = some (128, 128) := by
  refine ⟨by decide, by decide⟩

/-- C8: scenario S6 — the expire-after-write cache of capacity 3 and TTL 30
with an injected clock produces the evicted-key events `[0, 1]` in that
order, and the final resident keys (with no further expired entries left to
sweep) are `[2, 3, 4]`. -/
theorem claim_C8_expirable_s6 :
    expS6Run.2 = [0, 1] ∧
    (expS6Run.1.keysAt 35).2.1 = [2, 3, 4] ∧
    (expS6Run.1.keysAt 35).2.2 = [] := by
  refine ⟨by decide, by decide, by decide⟩

/-- C4 counterexample: in the reachable ARC state `arcKeysState`, the code's
`Keys()` yields `[2, 1]` (T1 keys before T2 keys), which differs from the
specified frequent-first order `[1, 2]`. -/
theorem claim_C4_keys_counterexample :
    arcKeysState.keys = [2, 1] ∧
    arcKeysSpec arcKeysState = [1, 2] ∧
    arcKeysState.keys ≠ arcKeysSpec arcKeysState := by
  refine ⟨by decide, by decide, by decide⟩

/-- C6 counterexample: with capacity 3 (positive) and the in-range ratios
0.25 and 0.0, 2Q construction fails, because the ghost sub-LRU is allocated
with size `floor(3 * 0.0) = 0`. -/
theorem claim_C6_construction_counterexample :
    (0 : Int) < 3 ∧ (0 : ℚ) ≤ 1/4 ∧ (1/4 : ℚ) ≤ 1 ∧ (0 : ℚ) ≤ 0 ∧ (0 : ℚ) ≤ 1 ∧
    (new2QParams 3 (1/4) 0 : Except String (TwoQueueCache Nat Nat)).isOk = false := by
  have h1 : ⌊((3 : Int) : ℚ) * (1/4)⌋ = (0 : Int) := by
    rw [Int.floor_eq_iff]; norm_num
  have h2 : ⌊((3 : Int) : ℚ) * 0⌋ = (0 : Int) := by
    rw [Int.floor_eq_iff]; norm_num
  refine ⟨by norm_num, by norm_num, by norm_num, le_refl 0, by norm_num, ?_⟩
  rw [new2QParams]
  rw [if_neg (by norm_num), if_neg (by norm_num), if_neg (by norm_num)]
  rw [h1, h2]
  decide

end ClosedTheorems

section Helpers

variable {K V : Type} [DecidableEq K]

/-- The flag returned by the simple LRU's `Remove` is exactly `Contains`. -/
theorem LRU.remove_flag_eq_contains (c : LRU K V) (k : K) : (c.remove k).2 = c.contains k := by
  unfold LRU.remove
  split
  · next h => simp [h]
  · next h => simp [eq_false_of_ne_true h]

/-- A key that is not contained has no entry to find. -/
theorem LRU.find?_eq_none_of_not_contains (c : LRU K V) (k : K)
    (h : c.contains k = false) :
    c.list.find? (fun p => decide (p.1 = k)) = none := by
  apply List.find?_eq_none.mpr
  intro p hp
  unfold LRU.contains at h
  have := List.any_eq_false.mp h p hp
  simpa using this

/-- `Peek` on a missing key returns nothing. -/
theorem LRU.peek_eq_none_of_not_contains (c : LRU K V) (k : K)
    (h : c.contains k = false) : c.peek k = none := by
  unfold LRU.peek
  rw [LRU.find?_eq_none_of_not_contains c k h]
  rfl

/-- `Get` on a missing key returns nothing. -/
theorem LRU.get_snd_eq_none_of_not_contains (c : LRU K V) (k : K)
    (h : c.contains k = false) : (c.get k).2 = none := by
  unfold LRU.get
  rw [LRU.find?_eq_none_of_not_contains c k h]

/-- The flag returned by the 2Q `Remove` is residency in `frequent` or
`recent`. -/
theorem TwoQueueCache.twoQRemove_flag_resident (s : TwoQueueCache K V) (k : K) :
    (s.remove k).2 = (s.frequent.contains k || s.recent.contains k) := by
  unfold TwoQueueCache.remove
  simp only [LRU.remove_flag_eq_contains]
  cases h1 : s.frequent.contains k <;> cases h2 : s.recent.contains k <;> simp [h1, h2]

/-- The flag returned by the ARC `Remove` is residency in T1 or T2. -/
theorem ARCCache.arcRemove_flag_resident (s : ARCCache K V) (k : K) :
    (s.remove k).2 = (s.t1.contains k || s.t2.contains k) := by
  unfold ARCCache.remove
  simp only [LRU.remove_flag_eq_contains]
  cases h1 : s.t1.contains k <;> cases h2 : s.t2.contains k <;>
    cases h3 : s.b1.contains k <;> cases h4 : s.b2.contains k <;>
    simp [h1, h2, h3, h4]

end Helpers

section ClaimC10

/-- C10: for both composite policies, `Remove(k)` reports `true` exactly when
`k` was resident at the time of the call (2Q: in `recent` or `frequent`;
ARC: in T1 or T2); a key present only in a ghost list reports `false`, since
ghost lists do not contribute to the flag. -/
theorem claim_C10_remove_resident {K V : Type} [DecidableEq K] :
    (∀ (s : TwoQueueCache K V) (k : K),
        (s.remove k).2 = (s.frequent.contains k || s.recent.contains k)) ∧
    (∀ (s : ARCCache K V) (k : K),
        (s.remove k).2 = (s.t1.contains k || s.t2.contains k)) :=
  ⟨fun s k => TwoQueueCache.twoQRemove_flag_resident s k, fun s k => ARCCache.arcRemove_flag_resident s k⟩

/-- Witness for C10: the equivalence evaluated in the final S4 state (2Q) and
in `arcB2State`, where key 1 sits only in the ghost list B2 and `Remove`
reports `false`. -/
theorem claim_C10_remove_resident_witness :
    (((runTwoQ twoQS4Start twoQS4Ops).1.remove 4).2 =
      ((runTwoQ twoQS4Start twoQS4Ops).1.frequent.contains 4 ||
       (runTwoQ twoQS4Start twoQS4Ops).1.recent.contains 4)) ∧
    ((arcB2State.remove 1).2 =
      (arcB2State.t1.contains 1 || arcB2State.t2.contains 1)) ∧
    (arcB2State.b2.contains 1 = true ∧ (arcB2State.remove 1).2 = false) :=
  ⟨claim_C10_remove_resident.1 (runTwoQ twoQS4Start twoQS4Ops).1 4,
   claim_C10_remove_resident.2 arcB2State 1,
   by decide, by decide⟩

end ClaimC10

section ClaimC9

/-- Clearing the visited bit of a visited entry decreases the visited count by
exactly one. -/
theorem countVisited_set_clear {K V : Type} :
    ∀ (l : List (SieveEntry K V)) (i : Nat) (e : SieveEntry K V),
      l[i]? = some e → e.visited = true →
      countVisited (l.set i { e with visited := false }) + 1 = countVisited l := by
  intro l
  induction l with
  | nil => intro i e h _; simp at h
  | cons a t ih =>
    intro i e h hv
    cases i with
    | zero =>
      simp only [List.getElem?_cons_zero, Option.some.injEq] at h
      subst h
      simp [countVisited, List.countP_cons, hv]
    | succ n =>
      simp only [List.getElem?_cons_succ] at h
      have hrec := ih n e h hv
      simp only [countVisited, List.set_cons_succ, List.countP_cons] at *
      omega

/-- The SIEVE scan succeeds whenever the fuel exceeds the number of set
visited bits: every loop iteration clears one bit and bits are never re-set
during the scan. -/
theorem sieveScanAux_isSome {K V : Type} :
    ∀ (fuel : Nat) (l : List (SieveEntry K V)) (i : Nat),
      i < l.length → countVisited l < fuel →
      (sieveScanAux l i fuel).isSome = true := by
  intro fuel
  induction fuel with
  | zero => intro l i _ hc; omega
  | succ f ih =>
    intro l i hi hc
    have he : l[i]? = some l[i] := List.getElem?_eq_getElem hi
    rw [sieveScanAux, he]
    by_cases hv : (l[i]).visited
    · simp only [hv, if_true]
      apply ih
      · have hlen : (l.set i { l[i] with visited := false }).length = l.length :=
          List.length_set l i _
        rw [hlen]
        split <;> omega
      · have := countVisited_set_clear l i (l[i]) he hv
        omega
    · simp [hv]

/-- The hand starts inside the list whenever the list is non-empty. -/
theorem handIdx_lt {K V : Type} [DecidableEq K] (c : SieveLRU K V) (h : c.listB ≠ []) :
    handIdx c < c.listB.length := by
  have hlen : 0 < c.listB.length := List.length_pos.mpr h
  unfold handIdx
  cases hh : c.hand with
  | none => simpa using hlen
  | some k =>
    cases hf : c.listB.findIdx? (fun e => decide (e.key = k)) with
    | none => simpa [hf] using hlen
    | some i =>
      simpa [hf] using (List.findIdx?_eq_some_iff_findIdx_eq.mp hf).1

/-- C9: the SIEVE victim-selection scan of `getSieveCandidate` terminates on
every non-empty cache state within `2 · length` steps: with that much fuel the
fuelled scan always finds an unvisited entry, because each step either clears
a visited bit (never re-set during the scan) or stops. -/
theorem claim_C9_sieve_scan_terminates {K V : Type} [DecidableEq K]
    (c : SieveLRU K V) (h : c.listB ≠ []) :
    (sieveScanAux c.listB (handIdx c) (2 * c.listB.length)).isSome = true := by
  have hlen : 0 < c.listB.length := List.length_pos.mpr h
  apply sieveScanAux_isSome
  · exact handIdx_lt c h
  · have hcount : countVisited c.listB ≤ c.listB.length :=
      List.countP_le_length _
    omega

/-- Witness for C9: the scan bound applied to a concrete two-entry state in
which both visited bits are set. -/
theorem claim_C9_sieve_scan_terminates_witness :
    (([⟨0, 0, true⟩, ⟨1, 1, true⟩] : List (SieveEntry Nat Nat)) ≠ []) ∧
    (sieveScanAux
        (SieveLRU.mk 2 [⟨0, 0, true⟩, ⟨1, 1, true⟩] (some 1)).listB
        (handIdx (SieveLRU.mk 2 [⟨0, 0, true⟩, ⟨1, 1, true⟩] (some 1)))
        (2 * (SieveLRU.mk 2 [⟨0, 0, true⟩, ⟨1, 1, true⟩] (some 1)).listB.length)).isSome
      = true :=
  ⟨by decide,
   claim_C9_sieve_scan_terminates (SieveLRU.mk 2 [⟨0, 0, true⟩, ⟨1, 1, true⟩] (some 1))
     (by decide)⟩

end ClaimC9

section ClaimC2

variable {K V : Type} [DecidableEq K]

/-- A contained key forces a positive length. -/
theorem LRU.contains_len_pos (c : LRU K V) (k : K) (h : c.contains k = true) :
    0 < c.len := by
  unfold LRU.contains at h
  obtain ⟨p, hp, -⟩ := List.any_eq_true.mp h
  exact List.length_pos.mpr (List.ne_nil_of_mem hp)

/-- `replace` never changes the adaptation target `p`. -/
theorem ARCCache.replace_p (c : ARCCache K V) (b : Bool) :
    ((c.replace b).1).p = c.p := by
  unfold ARCCache.replace
  dsimp only
  repeat' split
  all_goals rfl

/-- `replace` never changes the configured capacity. -/
theorem ARCCache.replace_size (c : ARCCache K V) (b : Bool) :
    ((c.replace b).1).size = c.size := by
  unfold ARCCache.replace
  dsimp only
  repeat' split
  all_goals rfl

/-- On a B1 ghost hit, `Add` sets `p` to
`min(cap, p + max(1, |B2|/|B1|))` (truncating division). -/
theorem ARCCache.add_b1_p (s : ARCCache K V) (k : K) (v : V)
    (h1 : s.t1.contains k = false) (h2 : s.t2.contains k = false)
    (h3 : s.b1.contains k = true) :
    ((s.add k v).1).p =
      min (s.size : Int) (s.p + ((max 1 (s.b2.len / s.b1.len) : Nat) : Int)) := by
  have hb1 : 0 < s.b1.len := LRU.contains_len_pos s.b1 k h3
  unfold ARCCache.add
  simp only [h1, h2, h3, Bool.false_eq_true, if_false, if_true]
  dsimp only
  have hplumb :
      ∀ X : ARCCache K V × Option (K × V),
        (({ { X.1 with b1 := ((X.1).b1.remove k).1 } with
            t2 := (({ X.1 with b1 := ((X.1).b1.remove k).1 }).t2.add k v).1 }).p) = (X.1).p :=
    fun X => rfl
  rw [hplumb]
  have hdelta :
      (if s.b2.len > s.b1.len then ((s.b2.len / s.b1.len : Nat) : Int) else 1) =
        ((max 1 (s.b2.len / s.b1.len) : Nat) : Int) := by
    by_cases hgt : s.b2.len > s.b1.len
    · have hd : 1 ≤ s.b2.len / s.b1.len := (Nat.one_le_div_iff hb1).mpr (Nat.le_of_lt hgt)
      rw [if_pos hgt, Nat.max_eq_right hd]
    · have hle : s.b2.len ≤ s.b1.len := Nat.le_of_not_lt hgt
      have hd : s.b2.len / s.b1.len ≤ 1 :=
        Nat.le_trans (Nat.div_le_div_right hle) (Nat.le_of_eq (Nat.div_self hb1))
      rw [if_neg hgt, Nat.max_eq_left hd, Nat.cast_one]
  split
  · rw [ARCCache.replace_p]
    dsimp only
    rw [hdelta]
    split <;> omega
  · dsimp only
    rw [hdelta]
    split <;> omega

/-- On a B2 ghost hit, `Add` sets `p` to
`max(0, p − max(1, |B1|/|B2|))` (truncating division). -/
theorem ARCCache.add_b2_p (s : ARCCache K V) (k : K) (v : V)
    (h1 : s.t1.contains k = false) (h2 : s.t2.contains k = false)
    (h3 : s.b1.contains k = false) (h4 : s.b2.contains k = true) :
    ((s.add k v).1).p =
      max 0 (s.p - ((max 1 (s.b1.len / s.b2.len) : Nat) : Int)) := by
  have hb2 : 0 < s.b2.len := LRU.contains_len_pos s.b2 k h4
  unfold ARCCache.add
  simp only [h1, h2, h3, h4, Bool.false_eq_true, if_false, if_true]
  dsimp only
  have hplumb :
      ∀ X : ARCCache K V × Option (K × V),
        (({ { X.1 with b2 := ((X.1).b2.remove k).1 } with
            t2 := (({ X.1 with b2 := ((X.1).b2.remove k).1 }).t2.add k v).1 }).p) = (X.1).p :=
    fun X => rfl
  rw [hplumb]
  have hdelta :
      (if s.b1.len > s.b2.len then ((s.b1.len / s.b2.len : Nat) : Int) else 1) =
        ((max 1 (s.b1.len / s.b2.len) : Nat) : Int) := by
    by_cases hgt : s.b1.len > s.b2.len
    · have hd : 1 ≤ s.b1.len / s.b2.len := (Nat.one_le_div_iff hb2).mpr (Nat.le_of_lt hgt)
      rw [if_pos hgt, Nat.max_eq_right hd]
    · have hle : s.b1.len ≤ s.b2.len := Nat.le_of_not_lt hgt
      have hd : s.b1.len / s.b2.len ≤ 1 :=
        Nat.le_trans (Nat.div_le_div_right hle) (Nat.le_of_eq (Nat.div_self hb2))
      rw [if_neg hgt, Nat.max_eq_left hd, Nat.cast_one]
  split
  · rw [ARCCache.replace_p]
    dsimp only
    rw [hdelta]
    split <;> omega
  · dsimp only
    rw [hdelta]
    split <;> omega

end ClaimC2

section ClaimC2Invariant

variable {K V : Type} [DecidableEq K]

/-- `Add` never changes the configured capacity. -/
theorem ARCCache.add_size (s : ARCCache K V) (k : K) (v : V) :
    ((s.add k v).1).size = s.size := by
  unfold ARCCache.add
  split
  · rfl
  · split
    · rfl
    · split
      · dsimp only
        split
        · rw [ARCCache.replace_size]
        · rfl
      · split
        · dsimp only
          split
          · rw [ARCCache.replace_size]
          · rfl
        · dsimp only
          repeat' split
          all_goals simp [ARCCache.replace_size]

/-- The three ways `Add` can change `p`: unchanged, clamped increase by at
least one (T1-side ghost hit), or clamped decrease by at least one (T2-side
ghost hit). -/
theorem ARCCache.add_p_cases (s : ARCCache K V) (k : K) (v : V) :
    ((s.add k v).1).p = s.p ∨
    (∃ d : Int, 1 ≤ d ∧
      ((s.add k v).1).p =
        if s.p + d ≥ (s.size : Int) then (s.size : Int) else s.p + d) ∨
    (∃ d : Int, 1 ≤ d ∧
      ((s.add k v).1).p = if d ≥ s.p then 0 else s.p - d) := by
  unfold ARCCache.add
  split
  · left; rfl
  · split
    · left; rfl
    · split
      · next h3 =>
        right; left
        have hb1 : 0 < s.b1.len := LRU.contains_len_pos s.b1 k h3
        refine ⟨if s.b2.len > s.b1.len then ((s.b2.len / s.b1.len : Nat) : Int) else 1,
          ?_, ?_⟩
        · split
          · next hgt =>
            have hd : 1 ≤ s.b2.len / s.b1.len :=
              (Nat.one_le_div_iff hb1).mpr (Nat.le_of_lt hgt)
            exact_mod_cast hd
          · exact le_refl 1
        · dsimp only
          split
          · rw [ARCCache.replace_p]
          · rfl
      · split
        · next h4 =>
          right; right
          have hb2 : 0 < s.b2.len := LRU.contains_len_pos s.b2 k h4
          refine ⟨if s.b1.len > s.b2.len then ((s.b1.len / s.b2.len : Nat) : Int) else 1,
            ?_, ?_⟩
          · split
            · next hgt =>
              have hd : 1 ≤ s.b1.len / s.b2.len :=
                (Nat.one_le_div_iff hb2).mpr (Nat.le_of_lt hgt)
              exact_mod_cast hd
            · exact le_refl 1
          · dsimp only
            split
            · rw [ARCCache.replace_p]
            · rfl
        · left
          dsimp only
          repeat' split
          all_goals simp [ARCCache.replace_p]

/-- `Get` never changes `p` or the capacity. -/
theorem ARCCache.get_p_size (s : ARCCache K V) (k : K) :
    ((s.get k).1).p = s.p ∧ ((s.get k).1).size = s.size := by
  unfold ARCCache.get
  cases s.t1.peek k <;> exact ⟨rfl, rfl⟩

/-- `Remove` never changes `p` or the capacity. -/
theorem ARCCache.remove_p_size (s : ARCCache K V) (k : K) :
    ((s.remove k).1).p = s.p ∧ ((s.remove k).1).size = s.size := by
  unfold ARCCache.remove
  dsimp only
  repeat' split
  all_goals exact ⟨rfl, rfl⟩

/-- Any single public operation keeps `p` within `[0, cap]` and leaves the
capacity unchanged. -/
theorem ARCCache.runArcOp_p_bounds (s : ARCCache K V) (op : ArcOp K V)
    (h0 : 0 ≤ s.p) (h1 : s.p ≤ (s.size : Int)) :
    0 ≤ (runArcOp s op).p ∧ (runArcOp s op).p ≤ ((runArcOp s op).size : Int) ∧
    (runArcOp s op).size = s.size := by
  cases op with
  | add k v =>
    have hs := ARCCache.add_size s k v
    have hc := ARCCache.add_p_cases s k v
    dsimp only [runArcOp]
    rw [hs]
    rcases hc with h | ⟨d, hd, h⟩ | ⟨d, hd, h⟩ <;> rw [h]
    · exact ⟨h0, h1, rfl⟩
    · constructor
      · split <;> omega
      · constructor
        · split <;> omega
        · rfl
    · constructor
      · split <;> omega
      · constructor
        · split <;> omega
        · rfl
  | get k =>
    have h := ARCCache.get_p_size s k
    dsimp only [runArcOp]
    rw [h.1, h.2]
    exact ⟨h0, h1, rfl⟩
  | peek k => exact ⟨h0, h1, rfl⟩
  | contains k => exact ⟨h0, h1, rfl⟩
  | remove k =>
    have h := ARCCache.remove_p_size s k
    dsimp only [runArcOp]
    rw [h.1, h.2]
    exact ⟨h0, h1, rfl⟩
  | purge => exact ⟨h0, h1, rfl⟩

/-- In every reachable ARC state, `p` lies within `[0, cap]` and the capacity
field equals the constructed capacity. -/
theorem arcReachable_p_bounds (cap : Nat) (s : ARCCache K V)
    (h : ArcReachable cap s) :
    0 ≤ s.p ∧ s.p ≤ (s.size : Int) ∧ s.size = cap := by
  induction h with
  | init => exact ⟨le_refl 0, Int.ofNat_nonneg cap, rfl⟩
  | step s op _ ih =>
    obtain ⟨ih0, ih1, ih2⟩ := ih
    have hb := ARCCache.runArcOp_p_bounds s op ih0 ih1
    exact ⟨hb.1, hb.2.1, hb.2.2.trans ih2⟩

end ClaimC2Invariant

section ClaimC2Main

/-- C2: on a B1 ghost hit, ARC's `Add` computes `δ = max(1, |B2|/|B1|)` with
truncating division and sets `p := min(cap, p + δ)`; on a B2 ghost hit it
computes `δ = max(1, |B1|/|B2|)` and sets `p := max(0, p − δ)`; consequently
`0 ≤ p ≤ cap` holds in every reachable state, hence after every operation. -/
theorem claim_C2_arc_adaptation {K V : Type} [DecidableEq K] :
    (∀ (s : ARCCache K V) (k : K) (v : V),
        s.t1.contains k = false → s.t2.contains k = false →
        s.b1.contains k = true →
        ((s.add k v).1).p =
          min (s.size : Int) (s.p + ((max 1 (s.b2.len / s.b1.len) : Nat) : Int))) ∧
    (∀ (s : ARCCache K V) (k : K) (v : V),
        s.t1.contains k = false → s.t2.contains k = false →
        s.b1.contains k = false → s.b2.contains k = true →
        ((s.add k v).1).p =
          max 0 (s.p - ((max 1 (s.b1.len / s.b2.len) : Nat) : Int))) ∧
    (∀ (cap : Nat) (s : ARCCache K V), ArcReachable cap s →
        0 ≤ s.p ∧ s.p ≤ (cap : Int)) :=
  ⟨fun s k v h1 h2 h3 => ARCCache.add_b1_p s k v h1 h2 h3,
   fun s k v h1 h2 h3 h4 => ARCCache.add_b2_p s k v h1 h2 h3 h4,
   fun cap s h => by
     have hb := arcReachable_p_bounds cap s h
     exact ⟨hb.1, hb.2.2 ▸ hb.2.1⟩⟩

/-- Witness for C2: the B1 formula evaluated in `arcB1State` (where key 1 is
in B1), the B2 formula in `arcB2State` (where key 1 is in B2), and the bound
in the freshly constructed cache of capacity 2. -/
theorem claim_C2_arc_adaptation_witness :
    (((arcB1State.add 1 9).1).p =
        min (arcB1State.size : Int)
          (arcB1State.p + ((max 1 (arcB1State.b2.len / arcB1State.b1.len) : Nat) : Int))) ∧
    (((arcB2State.add 1 9).1).p =
        max 0
          (arcB2State.p - ((max 1 (arcB2State.b1.len / arcB2State.b2.len) : Nat) : Int))) ∧
    (0 ≤ (ARCCache.newARC 2 : ARCCache Nat Nat).p ∧
      (ARCCache.newARC 2 : ARCCache Nat Nat).p ≤ ((2 : Nat) : Int)) :=
  ⟨claim_C2_arc_adaptation.1 arcB1State 1 9 (by decide) (by decide) (by decide),
   claim_C2_arc_adaptation.2.1 arcB2State 1 9 (by decide) (by decide) (by decide) (by decide),
   claim_C2_arc_adaptation.2.2 2 (ARCCache.newARC 2) ArcReachable.init⟩

end ClaimC2Main

section ClaimC4

/-- C4 (amended): the code's `Keys()` is the concatenation of the two resident
segments — `frequent ++ recent` for 2Q but `T1 ++ T2` (recent first) for ARC —
and each segment is internally ordered oldest to newest: a newly admitted key
appears at the newest (last) position of its segment. -/
theorem claim_C4_keys_amended {K V : Type} [DecidableEq K] :
    (∀ s : TwoQueueCache K V, s.keys = s.frequent.keys ++ s.recent.keys) ∧
    (∀ s : ARCCache K V, s.keys = s.t1.keys ++ s.t2.keys) ∧
    (∀ (c : LRU K V) (k : K) (v : V),
        c.contains k = false → c.len < c.size →
        ((c.add k v).1).keys = c.keys ++ [k]) := by
  refine ⟨fun s => rfl, fun s => rfl, ?_⟩
  intro c k v hc hlen
  unfold LRU.add
  simp only [hc, Bool.false_eq_true, if_false]
  rw [if_neg ?_]
  · unfold LRU.keys
    simp [List.reverse_cons]
  · unfold LRU.len at hlen
    simp only [List.length_cons]
    omega

/-- Witness for C4 (amended): the segment concatenation evaluated in the S4
and key-order states, and the oldest-to-newest property applied to a fresh
LRU of capacity 3 receiving key 1. -/
theorem claim_C4_keys_amended_witness :
    ((runTwoQ twoQS4Start twoQS4Ops).1.keys =
      (runTwoQ twoQS4Start twoQS4Ops).1.frequent.keys ++
        (runTwoQ twoQS4Start twoQS4Ops).1.recent.keys) ∧
    (arcKeysState.keys = arcKeysState.t1.keys ++ arcKeysState.t2.keys) ∧
    (((LRU.newRaw 3 : LRU Nat Nat).add 1 1).1).keys =
      (LRU.newRaw 3 : LRU Nat Nat).keys ++ [1] :=
  ⟨claim_C4_keys_amended.1 (runTwoQ twoQS4Start twoQS4Ops).1,
   claim_C4_keys_amended.2.1 arcKeysState,
   claim_C4_keys_amended.2.2 (LRU.newRaw 3) 1 1 (by decide) (by decide)⟩

end ClaimC4

section ClaimC6

/-- 2Q construction succeeds exactly for a positive capacity, ratios within
`[0, 1]`, and a positive ghost sub-size `⌊cap · ghost_ratio⌋`. -/
theorem new2QParams_isOk_iff {K V : Type} (size : Int) (r g : ℚ) :
    (new2QParams size r g : Except String (TwoQueueCache K V)).isOk = true ↔
      (0 < size ∧ 0 ≤ r ∧ r ≤ 1 ∧ 0 ≤ g ∧ g ≤ 1 ∧ 1 ≤ ⌊(size : ℚ) * g⌋) := by
  unfold new2QParams newLRU
  by_cases hs : size ≤ 0
  · rw [if_pos hs]
    simp only [Except.isOk, Except.toBool]
    constructor
    · intro h; exact absurd h (by decide)
    · rintro ⟨h1, -⟩; exact absurd h1 (by omega)
  · rw [if_neg hs]
    by_cases hr : r < 0 ∨ r > 1
    · rw [if_pos hr]
      simp only [Except.isOk, Except.toBool]
      constructor
      · intro h; exact absurd h (by decide)
      · rintro ⟨-, h2, h3, -⟩
        rcases hr with hr | hr
        · exact absurd h2 (not_le.mpr hr)
        · exact absurd h3 (not_le.mpr hr)
    · rw [if_neg hr]
      by_cases hg : g < 0 ∨ g > 1
      · rw [if_pos hg]
        simp only [Except.isOk, Except.toBool]
        constructor
        · intro h; exact absurd h (by decide)
        · rintro ⟨-, -, -, h4, h5, -⟩
          rcases hg with hg | hg
          · exact absurd h4 (not_le.mpr hg)
          · exact absurd h5 (not_le.mpr hg)
      · rw [if_neg hg]
        simp only [if_neg hs]
        by_cases he : ⌊(size : ℚ) * g⌋ ≤ 0
        · rw [if_pos he]
          simp only [Except.isOk, Except.toBool]
          constructor
          · intro h; exact absurd h (by decide)
          · rintro ⟨-, -, -, -, -, h6⟩; exact absurd h6 (by omega)
        · rw [if_neg he]
          simp only [Except.isOk, Except.toBool, true_iff]
          push_neg at hr hg
          exact ⟨by omega, hr.1, hr.2, hg.1, hg.2, by omega⟩

/-- `Get` on a 2Q cache misses exactly like the code: no hit in `frequent`
and no hit in `recent` yields an empty option. -/
theorem TwoQueueCache.get_none_of_missing {K V : Type} [DecidableEq K]
    (s : TwoQueueCache K V) (k : K)
    (h1 : s.frequent.contains k = false) (h2 : s.recent.contains k = false) :
    (s.get k).2 = none := by
  unfold TwoQueueCache.get
  dsimp only
  rw [LRU.get_snd_eq_none_of_not_contains s.frequent k h1,
      LRU.peek_eq_none_of_not_contains s.recent k h2]

/-- C6 (amended): 2Q construction succeeds exactly when the capacity is
positive, both ratios lie within `[0, 1]`, and additionally
`⌊cap · ghost_ratio⌋ ≥ 1` (otherwise the ghost sub-LRU is created with a
non-positive size and construction fails); the simple-LRU constructor fails
exactly for non-positive capacity; and runtime operations do not fail: `get`
on a missing key returns an empty option and `remove` on a missing key
returns `false`. -/
theorem claim_C6_construction_amended {K V : Type} [DecidableEq K] :
    (∀ (size : Int) (r g : ℚ),
        (new2QParams size r g : Except String (TwoQueueCache K V)).isOk = true ↔
          (0 < size ∧ 0 ≤ r ∧ r ≤ 1 ∧ 0 ≤ g ∧ g ≤ 1 ∧ 1 ≤ ⌊(size : ℚ) * g⌋)) ∧
    (∀ size : Int, (newLRU size : Except String (LRU K V)).isOk = true ↔ 0 < size) ∧
    (∀ (s : TwoQueueCache K V) (k : K),
        s.frequent.contains k = false → s.recent.contains k = false →
        (s.get k).2 = none) ∧
    (∀ (s : TwoQueueCache K V) (k : K),
        s.frequent.contains k = false → s.recent.contains k = false →
        (s.remove k).2 = false) := by
  refine ⟨fun size r g => new2QParams_isOk_iff size r g, ?_, ?_, ?_⟩
  · intro size
    unfold newLRU
    by_cases hs : size ≤ 0
    · rw [if_pos hs]
      simp only [Except.isOk, Except.toBool]
      constructor
      · intro h; exact absurd h (by decide)
      · intro h; exact absurd h (by omega)
    · rw [if_neg hs]
      simp only [Except.isOk, Except.toBool, true_iff]
      omega
  · exact fun s k h1 h2 => TwoQueueCache.get_none_of_missing s k h1 h2
  · intro s k h1 h2
    rw [TwoQueueCache.twoQRemove_flag_resident, h1, h2]
    rfl

/-- Witness for C6 (amended): the construction criterion evaluated at
capacity 3 with ratios 0.25 and 0.5, and the missing-key behaviour of `get`
and `remove` on the final S4 state at the absent key 9. -/
theorem claim_C6_construction_amended_witness :
    ((new2QParams 3 (1/4) (1/2) : Except String (TwoQueueCache Nat Nat)).isOk = true ↔
      (0 < (3 : Int) ∧ 0 ≤ (1/4 : ℚ) ∧ (1/4 : ℚ) ≤ 1 ∧ 0 ≤ (1/2 : ℚ) ∧ (1/2 : ℚ) ≤ 1 ∧
        1 ≤ ⌊((3 : Int) : ℚ) * (1/2)⌋)) ∧
    (((runTwoQ twoQS4Start twoQS4Ops).1.get 9).2 = none) ∧
    (((runTwoQ twoQS4Start twoQS4Ops).1.remove 9).2 = false) :=
  ⟨claim_C6_construction_amended.1 3 (1/4) (1/2),
   claim_C6_construction_amended.2.2.1 (runTwoQ twoQS4Start twoQS4Ops).1 9
     (by decide) (by decide),
   claim_C6_construction_amended.2.2.2 (runTwoQ twoQS4Start twoQS4Ops).1 9
     (by decide) (by decide)⟩

end ClaimC6
